import Mathlib

/-!
Verification of the species-thermo property-manager core
(`src/Cantera/src/SpeciesThermo.h`, `src/Cantera/src/SpeciesThermoInterpType.h`)
against its natural-language specification.

Shallow embedding conventions:
* `doublereal` (a C++ `double`) is modelled as `ℚ`; the claims under
  study are structural (frame conditions, aggregation, delegation,
  round-trips), none depends on floating-point rounding.
* `std::log`, used only to build the temperature polynomial `tt[5]`, is
  external to the repository; it is threaded through as an explicit
  function parameter `lg`.
* The concrete curve-fit families (NasaPoly1, ConstCpPoly, ...) are
  explicitly outside this core: a model's property formula is an opaque
  pure function of its coefficients and the temperature polynomial,
  installed by an external factory keyed by the type tag.
* C++ methods returning `void` that may report an error are modelled as
  returning the updated object paired with an `Option` error; a silent
  method returns `none`.
-/

namespace Cantera

/-- `doublereal` from `ct_defs.h`, modelled as the rationals. -/
abbrev doublereal := ℚ

/-- The temperature polynomial documented at
`SpeciesThermoInterpType::updateProperties`:
`tt[0]=t, tt[1]=t*t, tt[2]=t*t*t, tt[3]=t*t*t*t, tt[4]=1/t, tt[5]=log t`.
`lg` models the external `std::log`. -/
def tempPoly (lg : doublereal → doublereal) (t : doublereal) : List doublereal :=
  [t, t * t, t * t * t, t * t * t * t, 1 / t, lg t]

/-- A registration error raised by `SpeciesThermo::install`. -/
inductive RegError
  | negativeIndex
deriving DecidableEq

/-- A coefficient-shape error raised by a conforming
`modifyParameters` implementation. -/
inductive CoeffError
  | badLength
deriving DecidableEq

/-- `SpeciesThermoInterpType`: the per-species parameterization.
Fields are the state the spec assigns to one model: its own slot
`index` into the phase arrays, the integer type tag, the validity
range, the reference pressure, and the opaque coefficient sequence.
`evalProps` is the formula of the concrete curve-fit family
(external to this core): a pure function taking the coefficient
sequence and the temperature polynomial to the three dimensionless
properties `(cp_R, h_RT, s_R)`. -/
structure SpeciesThermoInterpType where
  index : Nat
  mtype : Int
  minT : doublereal
  maxT : doublereal
  refP : doublereal
  coeffs : List doublereal
  evalProps : List doublereal → List doublereal → doublereal × doublereal × doublereal

/-- The three caller-owned output arrays `cp_R`, `h_RT`, `s_R`. -/
structure PropArrays where
  cp_R : List doublereal
  h_RT : List doublereal
  s_R : List doublereal
deriving DecidableEq

/-- `SpeciesThermoInterpType::updateProperties`.
Modelled from the spec: the method is pure virtual in src; per §4.1 a
concrete model computes a pure function of the temperature polynomial
and its own immutable coefficients and writes the three results into
the single slot of each output array given by its own species index,
touching no other slot. -/
def SpeciesThermoInterpType.updateProperties (m : SpeciesThermoInterpType)
    (tt : List doublereal) (a : PropArrays) : PropArrays :=
  let v := m.evalProps m.coeffs tt
  ⟨a.cp_R.set m.index v.1, a.h_RT.set m.index v.2.1, a.s_R.set m.index v.2.2⟩

/-- `SpeciesThermoInterpType::updatePropertiesTemp`.
Modelled from the spec: pure virtual in src; per §4.1 it derives the
temperature polynomial from `t` internally and otherwise behaves
identically to `updateProperties`. -/
def SpeciesThermoInterpType.updatePropertiesTemp (m : SpeciesThermoInterpType)
    (lg : doublereal → doublereal) (t : doublereal) (a : PropArrays) : PropArrays :=
  m.updateProperties (tempPoly lg t) a

/-- `SpeciesThermoInterpType::reportParameters`.
Modelled from the spec: pure virtual in src; per §4.1 it returns the
full introspection snapshot `(index, type, minTemp, maxTemp,
refPressure, coeffs)` reflecting current state. -/
def SpeciesThermoInterpType.reportParameters (m : SpeciesThermoInterpType) :
    Int × Int × doublereal × doublereal × doublereal × List doublereal :=
  ((m.index : Int), m.mtype, m.minT, m.maxT, m.refP, m.coeffs)

/-- `SpeciesThermoInterpType::modifyParameters`, the default
implementation in src (`SpeciesThermoInterpType.h` line 136): an empty
body — a silent no-op that changes nothing and signals nothing. -/
def SpeciesThermoInterpType.modifyParameters (m : SpeciesThermoInterpType)
    (_c : List doublereal) : SpeciesThermoInterpType × Option CoeffError :=
  (m, none)

/-- Modelled from the spec: a conforming concrete override of
`modifyParameters` (the concrete families are not in src). Per §4.1 it
replaces the coefficient sequence in place when its length matches
what the type tag expects (`reqLen`, the tag-to-length table of the
external `speciesThermoTypes.h`), fails otherwise, and never changes
range, pressure or type tag. -/
def SpeciesThermoInterpType.modifyParametersImpl (m : SpeciesThermoInterpType)
    (reqLen : Int → Nat) (c : List doublereal) :
    SpeciesThermoInterpType × Option CoeffError :=
  if c.length = reqLen m.mtype then ({ m with coeffs := c }, none)
  else (m, some CoeffError.badLength)

/-- `SpeciesThermo`: the phase-level manager owning the registered
models and, for diagnostics, the species names. -/
structure SpeciesThermo where
  speciesNames : List String
  models : List SpeciesThermoInterpType

/-- Index uniqueness, the registry invariant of spec §3: every species
index carries exactly one model. -/
def SpeciesThermo.nodupIndices (st : SpeciesThermo) : Prop :=
  (st.models.map fun m => m.index).Nodup

/-- Registry lookup: the model registered at species index `k`. -/
def SpeciesThermo.modelAt (st : SpeciesThermo) (k : Int) :
    Option SpeciesThermoInterpType :=
  st.models.find? fun m => (m.index : Int) == k

/-- `SpeciesThermo::install`.
Modelled from the spec: pure virtual in src; per §4.2 it constructs a
model through the external factory keyed by the type tag (`fam`,
mapping tag and coefficients to the family's evaluation formula),
registers it, records `name`, and fails with a registration error on a
negative index, leaving the registry unchanged. -/
def SpeciesThermo.install (st : SpeciesThermo)
    (fam : Int → List doublereal → List doublereal → doublereal × doublereal × doublereal)
    (name : String) (index : Int) (typ : Int) (c : List doublereal)
    (minTemp maxTemp refPressure : doublereal) :
    SpeciesThermo × Option RegError :=
  if index < 0 then (st, some RegError.negativeIndex)
  else
    ({ speciesNames := st.speciesNames ++ [name],
       models := st.models ++
         [⟨index.toNat, typ, minTemp, maxTemp, refPressure, c, fam typ⟩] },
     none)

/-- `SpeciesThermo::update`.
Modelled from the spec: pure virtual in src; per §4.2 it computes the
temperature polynomial for `t` once and invokes `updateProperties` on
every registered model in registry order, each writing into its own
slot. -/
def SpeciesThermo.update (st : SpeciesThermo) (lg : doublereal → doublereal)
    (t : doublereal) (a : PropArrays) : PropArrays :=
  let tt := tempPoly lg t
  st.models.foldl (fun acc m => m.updateProperties tt acc) a

/-- `SpeciesThermo::update_one`, the default implementation in src
(`SpeciesThermo.h` lines 181–186): it ignores `k` and falls back to
the full batch `update`. -/
def SpeciesThermo.update_one (st : SpeciesThermo) (lg : doublereal → doublereal)
    (_k : Int) (t : doublereal) (a : PropArrays) : PropArrays :=
  st.update lg t a

/-- Modelled from the spec: an overriding per-species fast path for
`update_one` (no such override is in src). Per §4.2 it computes the
temperature polynomial for `t` and invokes only the model at index
`k`. -/
def SpeciesThermo.update_one_fast (st : SpeciesThermo) (lg : doublereal → doublereal)
    (k : Int) (t : doublereal) (a : PropArrays) : PropArrays :=
  match st.modelAt k with
  | some m => m.updateProperties (tempPoly lg t) a
  | none => a

/-- Maximum of a list of rationals (0 on the empty list, which the
aggregation never consults for a non-empty registry). -/
def maxList : List doublereal → doublereal
  | [] => 0
  | x :: xs => xs.foldl max x

/-- Minimum of a list of rationals. -/
def minList : List doublereal → doublereal
  | [] => 0
  | x :: xs => xs.foldl min x

/-- `SpeciesThermo::minTemp`.
Modelled from the spec: pure virtual in src; with an explicit species
index it delegates to that model, and with the sentinel (negative,
default −1) argument it returns the maximum of the per-species
minimum temperatures — the lower end of the tightest common validity
window (the value is unspecified for an unregistered non-negative
index; 0 stands in). -/
def SpeciesThermo.minTemp (st : SpeciesThermo) (k : Int) : doublereal :=
  if k < 0 then maxList (st.models.map fun m => m.minT)
  else
    match st.modelAt k with
    | some m => m.minT
    | none => 0

/-- `SpeciesThermo::maxTemp`.
Modelled from the spec: pure virtual in src; with an explicit species
index it delegates to that model, and with the sentinel argument it
returns the minimum of the per-species maximum temperatures — the
upper end of the tightest common validity window. -/
def SpeciesThermo.maxTemp (st : SpeciesThermo) (k : Int) : doublereal :=
  if k < 0 then minList (st.models.map fun m => m.maxT)
  else
    match st.modelAt k with
    | some m => m.maxT
    | none => 0

/-- `SpeciesThermo::modifyParams`, the default implementation in src
(`SpeciesThermo.h` line 262): an empty body — a silent no-op. -/
def SpeciesThermo.modifyParams (st : SpeciesThermo) (_k : Int)
    (_c : List doublereal) : SpeciesThermo × Option CoeffError :=
  (st, none)

/-- Modelled from the spec: a concrete manager's `modifyParams`
override (none is in src). Per §4.2 it delegates to the model at
`index`: that model is replaced by the outcome of its own conforming
`modifyParameters`, every other model is untouched, and the model's
error report is passed through. -/
def SpeciesThermo.modifyParamsImpl (st : SpeciesThermo) (reqLen : Int → Nat)
    (k : Int) (c : List doublereal) : SpeciesThermo × Option CoeffError :=
  match st.modelAt k with
  | some m =>
      ({ st with
         models := st.models.map fun mm =>
           if (mm.index : Int) == k then (m.modifyParametersImpl reqLen c).1 else mm },
       (m.modifyParametersImpl reqLen c).2)
  | none => (st, none)

/-- The three arrays agree at slot `j`. -/
def agreesAt (x y : PropArrays) (j : Nat) : Prop :=
  x.cp_R[j]? = y.cp_R[j]? ∧ x.h_RT[j]? = y.h_RT[j]? ∧ x.s_R[j]? = y.s_R[j]?

/-! ### Concrete instances used by the witnesses -/

instance (st : SpeciesThermo) : Decidable st.nodupIndices :=
  inferInstanceAs
    (Decidable (st.models.map fun m : SpeciesThermoInterpType => m.index).Nodup)

/-- A concrete constant-cp style evaluation family for examples: the
three properties are read off the first coefficient, ignoring the
temperature polynomial. -/
def famEx : Int → List doublereal → List doublereal → doublereal × doublereal × doublereal :=
  fun _ c _ => (c.headD 0, c.headD 0 + 1, c.headD 0 + 2)

/-- Example model at species index 0. -/
def mA : SpeciesThermoInterpType :=
  ⟨0, 1, 200, 3500, 101325, [7 / 2], famEx 1⟩

/-- Example model at species index 1. -/
def mB : SpeciesThermoInterpType :=
  ⟨1, 2, 300, 3000, 101325, [5 / 2], famEx 2⟩

/-- Example manager holding `mA` and `mB`. -/
def stAB : SpeciesThermo := ⟨["A", "B"], [mA, mB]⟩

/-- Example output arrays of length 2, pre-filled with zeros. -/
def arrs2 : PropArrays := ⟨[0, 0], [0, 0], [0, 0]⟩

/-- Example tag-to-length table: every type tag expects 4 coefficients
(as a constant-cp fit does). -/
def constCpReqLen : Int → Nat := fun _ => 4

/-- Example model whose type tag expects 4 coefficients. -/
def cmodel : SpeciesThermoInterpType :=
  ⟨0, 1, 200, 3500, 101325, [29815 / 100, 0, 0, 7 / 2], famEx 1⟩

/-- The empty manager. -/
def stEmpty : SpeciesThermo := ⟨[], []⟩

/-! ### Helper lemmas -/

lemma agreesAt_refl (x : PropArrays) (j : Nat) : agreesAt x x j :=
  ⟨rfl, rfl, rfl⟩

lemma agreesAt_trans {x y z : PropArrays} {j : Nat}
    (h1 : agreesAt x y j) (h2 : agreesAt y z j) : agreesAt x z j :=
  ⟨h1.1.trans h2.1, h1.2.1.trans h2.2.1, h1.2.2.trans h2.2.2⟩

lemma updateProperties_agrees_ne (m : SpeciesThermoInterpType)
    (tt : List doublereal) (a : PropArrays) (j : Nat) (hj : j ≠ m.index) :
    agreesAt (m.updateProperties tt a) a j := by
  refine ⟨?_, ?_, ?_⟩ <;>
    simp [SpeciesThermoInterpType.updateProperties,
      List.getElem?_set_ne (fun h => hj h.symm)]

lemma updateProperties_lengths (m : SpeciesThermoInterpType)
    (tt : List doublereal) (a : PropArrays) :
    (m.updateProperties tt a).cp_R.length = a.cp_R.length ∧
    (m.updateProperties tt a).h_RT.length = a.h_RT.length ∧
    (m.updateProperties tt a).s_R.length = a.s_R.length := by
  refine ⟨?_, ?_, ?_⟩ <;> simp [SpeciesThermoInterpType.updateProperties]

lemma updateProperties_get_self (m : SpeciesThermoInterpType)
    (tt : List doublereal) (a : PropArrays)
    (h1 : m.index < a.cp_R.length) (h2 : m.index < a.h_RT.length)
    (h3 : m.index < a.s_R.length) :
    (m.updateProperties tt a).cp_R[m.index]? = some (m.evalProps m.coeffs tt).1 ∧
    (m.updateProperties tt a).h_RT[m.index]? = some (m.evalProps m.coeffs tt).2.1 ∧
    (m.updateProperties tt a).s_R[m.index]? = some (m.evalProps m.coeffs tt).2.2 := by
  refine ⟨?_, ?_, ?_⟩ <;>
    simp [SpeciesThermoInterpType.updateProperties,
      List.getElem?_set_self, h1, h2, h3]

lemma foldl_update_agrees (tt : List doublereal) :
    ∀ (ms : List SpeciesThermoInterpType) (a : PropArrays) (j : Nat),
      (∀ mm ∈ ms, mm.index ≠ j) →
      agreesAt (ms.foldl (fun acc m => m.updateProperties tt acc) a) a j := by
  intro ms
  induction ms with
  | nil => intro a j _; exact agreesAt_refl a j
  | cons m0 rest ih =>
      intro a j hj
      have h0 : j ≠ m0.index := fun h => hj m0 (by simp) h.symm
      have hrest : ∀ mm ∈ rest, mm.index ≠ j := fun mm hmm => hj mm (by simp [hmm])
      exact agreesAt_trans (ih (m0.updateProperties tt a) j hrest)
        (updateProperties_agrees_ne m0 tt a j h0)

lemma foldl_update_lengths (tt : List doublereal) :
    ∀ (ms : List SpeciesThermoInterpType) (a : PropArrays),
      (ms.foldl (fun acc m => m.updateProperties tt acc) a).cp_R.length = a.cp_R.length ∧
      (ms.foldl (fun acc m => m.updateProperties tt acc) a).h_RT.length = a.h_RT.length ∧
      (ms.foldl (fun acc m => m.updateProperties tt acc) a).s_R.length = a.s_R.length := by
  intro ms
  induction ms with
  | nil => intro a; exact ⟨rfl, rfl, rfl⟩
  | cons m0 rest ih =>
      intro a
      have h := ih (m0.updateProperties tt a)
      have h0 := updateProperties_lengths m0 tt a
      simp only [List.foldl_cons]
      exact ⟨h.1.trans h0.1, h.2.1.trans h0.2.1, h.2.2.trans h0.2.2⟩

lemma foldl_update_get_of_mem (tt : List doublereal) :
    ∀ (ms : List SpeciesThermoInterpType) (a : PropArrays)
      (m : SpeciesThermoInterpType),
      (ms.map fun mm => mm.index).Nodup → m ∈ ms →
      m.index < a.cp_R.length → m.index < a.h_RT.length → m.index < a.s_R.length →
      (ms.foldl (fun acc mm => mm.updateProperties tt acc) a).cp_R[m.index]? =
        some (m.evalProps m.coeffs tt).1 ∧
      (ms.foldl (fun acc mm => mm.updateProperties tt acc) a).h_RT[m.index]? =
        some (m.evalProps m.coeffs tt).2.1 ∧
      (ms.foldl (fun acc mm => mm.updateProperties tt acc) a).s_R[m.index]? =
        some (m.evalProps m.coeffs tt).2.2 := by
  intro ms
  induction ms with
  | nil => intro a m _ hm; exact absurd hm (List.not_mem_nil m)
  | cons m0 rest ih =>
      intro a m hnd hm h1 h2 h3
      have hnd2 : (∀ x ∈ rest, ¬x.index = m0.index) ∧
          (rest.map fun mm => mm.index).Nodup := by simpa using hnd
      have hndr : (rest.map fun mm => mm.index).Nodup := hnd2.2
      rcases List.mem_cons.mp hm with heq | hmem
      · subst heq
        have hrest : ∀ mm ∈ rest, mm.index ≠ m.index := hnd2.1
        have hagree := foldl_update_agrees tt rest (m.updateProperties tt a) m.index hrest
        have hself := updateProperties_get_self m tt a h1 h2 h3
        simp only [List.foldl_cons]
        exact ⟨hagree.1.trans hself.1, hagree.2.1.trans hself.2.1,
          hagree.2.2.trans hself.2.2⟩
      · have hl := updateProperties_lengths m0 tt a
        simp only [List.foldl_cons]
        exact ih (m0.updateProperties tt a) m hndr hmem
          (hl.1 ▸ h1) (hl.2.1 ▸ h2) (hl.2.2 ▸ h3)

lemma find?_model_eq (k : Int) :
    ∀ (ms : List SpeciesThermoInterpType) (m : SpeciesThermoInterpType),
      (ms.map fun mm => mm.index).Nodup → m ∈ ms → (m.index : Int) = k →
      (ms.find? fun mm => (mm.index : Int) == k) = some m := by
  intro ms
  induction ms with
  | nil => intro m _ hm; exact absurd hm (List.not_mem_nil m)
  | cons m0 rest ih =>
      intro m hnd hm hk
      have hnd2 : (∀ x ∈ rest, ¬x.index = m0.index) ∧
          (rest.map fun mm => mm.index).Nodup := by simpa using hnd
      have hndr : (rest.map fun mm => mm.index).Nodup := hnd2.2
      rcases List.mem_cons.mp hm with heq | hmem
      · subst heq
        exact List.find?_cons_of_pos rest (by simpa using hk)
      · have hne : ((m0.index : Int) == k) = false := by
          rw [beq_eq_false_iff_ne]
          intro h
          have hix : m.index = m0.index := by exact_mod_cast hk.trans h.symm
          exact hnd2.1 m hmem hix
        rw [List.find?_cons_of_neg rest (by simp [hne]), ih m hndr hmem hk]

lemma foldl_max_attained (xs : List doublereal) :
    ∀ x : doublereal, xs.foldl max x = x ∨ xs.foldl max x ∈ xs := by
  induction xs with
  | nil => intro x; exact Or.inl rfl
  | cons z xs ih =>
      intro x
      rcases ih (max x z) with h | h
      · rcases max_choice x z with hm | hm
        · exact Or.inl (by rw [List.foldl_cons, h, hm])
        · exact Or.inr (by rw [List.foldl_cons, h, hm]; exact List.mem_cons_self z xs)
      · exact Or.inr (List.mem_cons_of_mem z h)

lemma le_foldl_max (xs : List doublereal) :
    ∀ x : doublereal, x ≤ xs.foldl max x := by
  induction xs with
  | nil => intro x; exact le_refl x
  | cons z xs ih =>
      intro x
      exact le_trans (le_max_left x z) (by simpa using ih (max x z))

lemma mem_le_foldl_max (xs : List doublereal) :
    ∀ (x y : doublereal), y ∈ xs → y ≤ xs.foldl max x := by
  induction xs with
  | nil => intro x y hy; exact absurd hy (List.not_mem_nil y)
  | cons z xs ih =>
      intro x y hy
      rcases List.mem_cons.mp hy with heq | hmem
      · subst heq
        exact le_trans (le_max_right x y) (by simpa using le_foldl_max xs (max x y))
      · simpa using ih (max x z) y hmem

lemma foldl_min_attained (xs : List doublereal) :
    ∀ x : doublereal, xs.foldl min x = x ∨ xs.foldl min x ∈ xs := by
  induction xs with
  | nil => intro x; exact Or.inl rfl
  | cons z xs ih =>
      intro x
      rcases ih (min x z) with h | h
      · rcases min_choice x z with hm | hm
        · exact Or.inl (by rw [List.foldl_cons, h, hm])
        · exact Or.inr (by rw [List.foldl_cons, h, hm]; exact List.mem_cons_self z xs)
      · exact Or.inr (List.mem_cons_of_mem z h)

lemma foldl_min_le (xs : List doublereal) :
    ∀ x : doublereal, xs.foldl min x ≤ x := by
  induction xs with
  | nil => intro x; exact le_refl x
  | cons z xs ih =>
      intro x
      exact le_trans (by simpa using ih (min x z)) (min_le_left x z)

lemma foldl_min_le_mem (xs : List doublereal) :
    ∀ (x y : doublereal), y ∈ xs → xs.foldl min x ≤ y := by
  induction xs with
  | nil => intro x y hy; exact absurd hy (List.not_mem_nil y)
  | cons z xs ih =>
      intro x y hy
      rcases List.mem_cons.mp hy with heq | hmem
      · subst heq
        exact le_trans (by simpa using foldl_min_le xs (min x y)) (min_le_right x y)
      · simpa using ih (min x z) y hmem

lemma maxList_spec (xs : List doublereal) (hne : xs ≠ []) :
    maxList xs ∈ xs ∧ ∀ y ∈ xs, y ≤ maxList xs := by
  cases xs with
  | nil => exact absurd rfl hne
  | cons y ys =>
      constructor
      · rcases foldl_max_attained ys y with h | h
        · rw [show maxList (y :: ys) = ys.foldl max y from rfl, h]
          exact List.mem_cons_self y ys
        · rw [show maxList (y :: ys) = ys.foldl max y from rfl]
          exact List.mem_cons_of_mem y h
      · intro z hz
        rcases List.mem_cons.mp hz with heq | hmem
        · subst heq; simpa [maxList] using le_foldl_max ys z
        · simpa [maxList] using mem_le_foldl_max ys y z hmem

lemma minList_spec (xs : List doublereal) (hne : xs ≠ []) :
    minList xs ∈ xs ∧ ∀ y ∈ xs, minList xs ≤ y := by
  cases xs with
  | nil => exact absurd rfl hne
  | cons y ys =>
      constructor
      · rcases foldl_min_attained ys y with h | h
        · rw [show minList (y :: ys) = ys.foldl min y from rfl, h]
          exact List.mem_cons_self y ys
        · rw [show minList (y :: ys) = ys.foldl min y from rfl]
          exact List.mem_cons_of_mem y h
      · intro z hz
        rcases List.mem_cons.mp hz with heq | hmem
        · subst heq; simpa [minList] using foldl_min_le ys z
        · simpa [minList] using foldl_min_le_mem ys y z hmem

lemma index_inj_of_nodup :
    ∀ (ms : List SpeciesThermoInterpType),
      (ms.map fun mm => mm.index).Nodup →
      ∀ x ∈ ms, ∀ y ∈ ms, x.index = y.index → x = y := by
  intro ms
  induction ms with
  | nil => intro _ x hx; exact absurd hx (List.not_mem_nil x)
  | cons m0 rest ih =>
      intro hnd x hx y hy hxy
      have hnd2 : (∀ z ∈ rest, ¬z.index = m0.index) ∧
          (rest.map fun mm => mm.index).Nodup := by simpa using hnd
      rcases List.mem_cons.mp hx with hx0 | hxr <;>
        rcases List.mem_cons.mp hy with hy0 | hyr
      · rw [hx0, hy0]
      · subst hx0; exact absurd (hxy.symm) (hnd2.1 y hyr)
      · subst hy0; exact absurd hxy (hnd2.1 x hxr)
      · exact ih hnd2.2 x hxr y hyr hxy

lemma modelAt_after_modify (k : Int) (reqLen : Int → Nat) (c : List doublereal)
    (m : SpeciesThermoInterpType) (hk : (m.index : Int) = k) :
    ∀ ms : List SpeciesThermoInterpType, m ∈ ms →
      ((ms.map fun x =>
          if (x.index : Int) == k then (m.modifyParametersImpl reqLen c).1 else x).find?
        fun x => (x.index : Int) == k) = some ((m.modifyParametersImpl reqLen c).1) := by
  have hidx : ((m.modifyParametersImpl reqLen c).1).index = m.index := by
    unfold SpeciesThermoInterpType.modifyParametersImpl
    split <;> rfl
  intro ms
  induction ms with
  | nil => intro hm; exact absurd hm (List.not_mem_nil m)
  | cons m0 rest ih =>
      intro hm
      by_cases h0 : ((m0.index : Int) == k) = true
      · rw [List.map_cons, if_pos h0]
        exact List.find?_cons_of_pos _ (by rw [hidx]; simpa using hk)
      · have hmr : m ∈ rest := by
          rcases List.mem_cons.mp hm with heq | hr
          · exact absurd (by rw [heq] at hk; simpa using hk) (by simpa using h0)
          · exact hr
        rw [List.map_cons, if_neg h0]
        rw [List.find?_cons_of_neg _ (by simpa using h0)]
        exact ih hmr

lemma modify_map_id (k : Int) (reqLen : Int → Nat) (c : List doublereal)
    (ms : List SpeciesThermoInterpType)
    (hnd : (ms.map fun mm => mm.index).Nodup)
    (m : SpeciesThermoInterpType) (hm : m ∈ ms) (hk : (m.index : Int) = k)
    (hsame : (m.modifyParametersImpl reqLen c).1 = m) :
    (ms.map fun x =>
      if (x.index : Int) == k then (m.modifyParametersImpl reqLen c).1 else x) = ms := by
  have hcongr : ∀ x ∈ ms,
      (if (x.index : Int) == k then (m.modifyParametersImpl reqLen c).1 else x) = x := by
    intro x hx
    by_cases hb : ((x.index : Int) == k) = true
    · have hxi : x.index = m.index := by
        have : (x.index : Int) = k := by simpa using hb
        exact_mod_cast this.trans hk.symm
      rw [if_pos hb, hsame, index_inj_of_nodup ms hnd x hx m hm hxi]
    · rw [if_neg hb]
  calc (ms.map fun x =>
      if (x.index : Int) == k then (m.modifyParametersImpl reqLen c).1 else x)
      = ms.map id := List.map_congr_left hcongr
    _ = ms := List.map_id ms

/-! ### Claim theorems -/

/-- C1: for every manager with a duplicate-free registry, every
temperature and every registered species index `k` (held by model `m`,
with output arrays long enough for slot `k`), the three values at slot
`k` after the batch `update` equal the three values at slot `k` after
`update_one` — both for a specialized per-species `update_one`
override and, in particular, for the default `update_one`, which falls
back to the full `update`. -/
theorem batch_single_consistency (st : SpeciesThermo)
    (lg : doublereal → doublereal) (t : doublereal) (a : PropArrays) (k : Int)
    (m : SpeciesThermoInterpType) (hnd : st.nodupIndices) (hm : m ∈ st.models)
    (hk : (m.index : Int) = k)
    (h1 : m.index < a.cp_R.length) (h2 : m.index < a.h_RT.length)
    (h3 : m.index < a.s_R.length) :
    agreesAt (st.update lg t a) (st.update_one_fast lg k t a) m.index ∧
    agreesAt (st.update lg t a) (st.update_one lg k t a) m.index := by
  have hfind : st.modelAt k = some m := find?_model_eq k st.models m hnd hm hk
  have hu := foldl_update_get_of_mem (tempPoly lg t) st.models a m hnd hm h1 h2 h3
  have hone := updateProperties_get_self m (tempPoly lg t) a h1 h2 h3
  have hfast : st.update_one_fast lg k t a = m.updateProperties (tempPoly lg t) a := by
    unfold SpeciesThermo.update_one_fast
    rw [hfind]
  have hupd : st.update lg t a =
      st.models.foldl (fun acc mm => mm.updateProperties (tempPoly lg t) acc) a := rfl
  constructor
  · rw [hfast, hupd]
    exact ⟨hu.1.trans hone.1.symm, hu.2.1.trans hone.2.1.symm,
      hu.2.2.trans hone.2.2.symm⟩
  · exact agreesAt_refl (st.update lg t a) m.index

/-- C1 witness: the two-species example manager at species index 1. -/
theorem batch_single_consistency_witness :
    agreesAt (stAB.update id 300 arrs2) (stAB.update_one_fast id 1 300 arrs2) 1 ∧
    agreesAt (stAB.update id 300 arrs2) (stAB.update_one id 1 300 arrs2) 1 :=
  batch_single_consistency stAB id 300 arrs2 1 mB (by decide)
    (List.mem_cons_of_mem mA (List.mem_cons_self mB [])) rfl
    (by decide) (by decide) (by decide)

/-- C10: the default `update_one` inherited from `SpeciesThermo`
ignores its species-index argument entirely: for every `k` (registered
or not) it equals the full batch `update`, its result does not depend
on `k`, and it writes the formula value of every registered model into
that model's slot. -/
theorem update_one_default_ignores_index (st : SpeciesThermo)
    (lg : doublereal → doublereal) (t : doublereal) (a : PropArrays) (k j : Int)
    (m : SpeciesThermoInterpType) (hnd : st.nodupIndices) (hm : m ∈ st.models)
    (h1 : m.index < a.cp_R.length) (h2 : m.index < a.h_RT.length)
    (h3 : m.index < a.s_R.length) :
    st.update_one lg k t a = st.update lg t a ∧
    st.update_one lg k t a = st.update_one lg j t a ∧
    (st.update_one lg k t a).cp_R[m.index]? =
      some (m.evalProps m.coeffs (tempPoly lg t)).1 ∧
    (st.update_one lg k t a).h_RT[m.index]? =
      some (m.evalProps m.coeffs (tempPoly lg t)).2.1 ∧
    (st.update_one lg k t a).s_R[m.index]? =
      some (m.evalProps m.coeffs (tempPoly lg t)).2.2 := by
  have hu := foldl_update_get_of_mem (tempPoly lg t) st.models a m hnd hm h1 h2 h3
  exact ⟨rfl, rfl, hu.1, hu.2.1, hu.2.2⟩

/-- C10 witness: the default `update_one` called with the unregistered
index −5 still fills the slot of the model registered at index 0. -/
theorem update_one_default_ignores_index_witness :
    stAB.update_one id (-5) 300 arrs2 = stAB.update id 300 arrs2 ∧
    stAB.update_one id (-5) 300 arrs2 = stAB.update_one id 7 300 arrs2 ∧
    (stAB.update_one id (-5) 300 arrs2).cp_R[mA.index]? =
      some (mA.evalProps mA.coeffs (tempPoly id 300)).1 ∧
    (stAB.update_one id (-5) 300 arrs2).h_RT[mA.index]? =
      some (mA.evalProps mA.coeffs (tempPoly id 300)).2.1 ∧
    (stAB.update_one id (-5) 300 arrs2).s_R[mA.index]? =
      some (mA.evalProps mA.coeffs (tempPoly id 300)).2.2 :=
  update_one_default_ignores_index stAB id 300 arrs2 (-5) 7 mA (by decide)
    (List.mem_cons_self mA [mB]) (by decide) (by decide) (by decide)

/-- C3: positional isolation. A model's `updateProperties` leaves
every slot other than its own index unchanged in all three output
arrays; the batch `update` leaves every slot belonging to no
registered model unchanged; and the single-species fast path
`update_one_fast k` leaves every slot other than `k` unchanged. -/
theorem positional_isolation (m : SpeciesThermoInterpType)
    (tt : List doublereal) (a : PropArrays) (st : SpeciesThermo)
    (lg : doublereal → doublereal) (t : doublereal) (b : PropArrays) (k : Int) :
    (∀ j : Nat, j ≠ m.index → agreesAt (m.updateProperties tt a) a j) ∧
    (∀ j : Nat, (∀ mm ∈ st.models, mm.index ≠ j) →
      agreesAt (st.update lg t b) b j) ∧
    (∀ j : Nat, (j : Int) ≠ k → agreesAt (st.update_one_fast lg k t b) b j) := by
  refine ⟨fun j hj => updateProperties_agrees_ne m tt a j hj, ?_, ?_⟩
  · intro j hj
    exact foldl_update_agrees (tempPoly lg t) st.models b j hj
  · intro j hj
    unfold SpeciesThermo.update_one_fast
    rcases hfind : st.modelAt k with _ | mm
    · exact agreesAt_refl b j
    · have hmk : ((mm.index : Int) == k) = true :=
        List.find?_some (p := fun x : SpeciesThermoInterpType => (x.index : Int) == k)
          (by simpa [SpeciesThermo.modelAt] using hfind)
      refine updateProperties_agrees_ne mm (tempPoly lg t) b j fun h => ?_
      exact hj (by rw [h]; simpa using hmk)

/-- C3 witness: a single-species evaluation at index 0 leaves slot 1
untouched in all three arrays, for the model, the batch update over a
one-model manager, and the fast path. -/
theorem positional_isolation_witness :
    agreesAt (mA.updateProperties (tempPoly id 300) arrs2) arrs2 1 ∧
    agreesAt ((SpeciesThermo.mk ["A"] [mA]).update id 300 arrs2) arrs2 1 ∧
    agreesAt ((SpeciesThermo.mk ["A"] [mA]).update_one_fast id 0 300 arrs2) arrs2 1 :=
  ⟨(positional_isolation mA (tempPoly id 300) arrs2 (SpeciesThermo.mk ["A"] [mA])
      id 300 arrs2 0).1 1 (by decide),
   (positional_isolation mA (tempPoly id 300) arrs2 (SpeciesThermo.mk ["A"] [mA])
      id 300 arrs2 0).2.1 1 (by decide),
   (positional_isolation mA (tempPoly id 300) arrs2 (SpeciesThermo.mk ["A"] [mA])
      id 300 arrs2 0).2.2 1 (by decide)⟩

/-- C4: determinism of the per-model evaluation. Repeating
`updateProperties` with the same temperature polynomial (and likewise
`updatePropertiesTemp` with the same temperature) reproduces exactly
the same output arrays, and the values written at the model's slot are
a pure function of the polynomial and the model — independent of the
prior contents of the output arrays. -/
theorem updateProperties_deterministic (m : SpeciesThermoInterpType)
    (tt : List doublereal) (lg : doublereal → doublereal) (t : doublereal)
    (a b : PropArrays)
    (h1 : m.index < a.cp_R.length) (h2 : m.index < a.h_RT.length)
    (h3 : m.index < a.s_R.length) (h4 : m.index < b.cp_R.length)
    (h5 : m.index < b.h_RT.length) (h6 : m.index < b.s_R.length) :
    m.updateProperties tt (m.updateProperties tt a) = m.updateProperties tt a ∧
    m.updatePropertiesTemp lg t (m.updatePropertiesTemp lg t a) =
      m.updatePropertiesTemp lg t a ∧
    agreesAt (m.updateProperties tt a) (m.updateProperties tt b) m.index := by
  refine ⟨?_, ?_, ?_⟩
  · simp [SpeciesThermoInterpType.updateProperties, List.set_set]
  · simp [SpeciesThermoInterpType.updatePropertiesTemp,
      SpeciesThermoInterpType.updateProperties, List.set_set]
  · have ha := updateProperties_get_self m tt a h1 h2 h3
    have hb := updateProperties_get_self m tt b h4 h5 h6
    exact ⟨ha.1.trans hb.1.symm, ha.2.1.trans hb.2.1.symm, ha.2.2.trans hb.2.2.symm⟩

/-- C4 witness: the example model at index 0, with two different
pre-filled array triples. -/
theorem updateProperties_deterministic_witness :
    mA.updateProperties (tempPoly id 300)
        (mA.updateProperties (tempPoly id 300) arrs2) =
      mA.updateProperties (tempPoly id 300) arrs2 ∧
    mA.updatePropertiesTemp id 300 (mA.updatePropertiesTemp id 300 arrs2) =
      mA.updatePropertiesTemp id 300 arrs2 ∧
    agreesAt (mA.updateProperties (tempPoly id 300) arrs2)
      (mA.updateProperties (tempPoly id 300) ⟨[9, 9], [9, 9], [9, 9]⟩) mA.index :=
  updateProperties_deterministic mA (tempPoly id 300) id 300 arrs2
    ⟨[9, 9], [9, 9], [9, 9]⟩ (by decide) (by decide) (by decide)
    (by decide) (by decide) (by decide)

/-- C7: a temperature outside a model's validity range signals no
error and takes no special path. The evaluation of a model never
consults `minTemp`/`maxTemp`: at an out-of-range `t`,
`updatePropertiesTemp` and `updateProperties` coincide with the same
call on the model with its range replaced by any other range (in
particular one containing `t`), and the manager's `update` and
`update_one` still write the ordinary formula value into the model's
slot. -/
theorem out_of_range_silent_extrapolation (m : SpeciesThermoInterpType)
    (lg : doublereal → doublereal) (t : doublereal) (a : PropArrays)
    (r1 r2 : doublereal) (tt : List doublereal) (st : SpeciesThermo) (k : Int)
    (hnd : st.nodupIndices) (hm : m ∈ st.models)
    (h1 : m.index < a.cp_R.length) (h2 : m.index < a.h_RT.length)
    (h3 : m.index < a.s_R.length)
    (_hout : t < m.minT ∨ m.maxT < t) :
    m.updatePropertiesTemp lg t a =
      SpeciesThermoInterpType.updatePropertiesTemp
        { m with minT := r1, maxT := r2 } lg t a ∧
    m.updateProperties tt a =
      SpeciesThermoInterpType.updateProperties
        { m with minT := r1, maxT := r2 } tt a ∧
    (st.update lg t a).cp_R[m.index]? =
      some (m.evalProps m.coeffs (tempPoly lg t)).1 ∧
    (st.update lg t a).h_RT[m.index]? =
      some (m.evalProps m.coeffs (tempPoly lg t)).2.1 ∧
    (st.update lg t a).s_R[m.index]? =
      some (m.evalProps m.coeffs (tempPoly lg t)).2.2 ∧
    st.update_one lg k t a = st.update lg t a := by
  have hu := foldl_update_get_of_mem (tempPoly lg t) st.models a m hnd hm h1 h2 h3
  exact ⟨rfl, rfl, hu.1, hu.2.1, hu.2.2, rfl⟩

/-- C7 witness: `t = 5000` lies above `mB`'s maximum temperature 3000,
yet evaluation proceeds exactly as in range. -/
theorem out_of_range_silent_extrapolation_witness :
    mB.updatePropertiesTemp id 5000 arrs2 =
      SpeciesThermoInterpType.updatePropertiesTemp
        { mB with minT := 0, maxT := 9000 } id 5000 arrs2 ∧
    mB.updateProperties (tempPoly id 5000) arrs2 =
      SpeciesThermoInterpType.updateProperties
        { mB with minT := 0, maxT := 9000 } (tempPoly id 5000) arrs2 ∧
    (stAB.update id 5000 arrs2).cp_R[mB.index]? =
      some (mB.evalProps mB.coeffs (tempPoly id 5000)).1 ∧
    (stAB.update id 5000 arrs2).h_RT[mB.index]? =
      some (mB.evalProps mB.coeffs (tempPoly id 5000)).2.1 ∧
    (stAB.update id 5000 arrs2).s_R[mB.index]? =
      some (mB.evalProps mB.coeffs (tempPoly id 5000)).2.2 ∧
    stAB.update_one id 1 5000 arrs2 = stAB.update id 5000 arrs2 :=
  out_of_range_silent_extrapolation mB id 5000 arrs2 0 9000 (tempPoly id 5000)
    stAB 1 (by decide) (List.mem_cons_of_mem mA (List.mem_cons_self mB []))
    (by decide) (by decide) (by decide) (Or.inr (by norm_num [mB]))

/-- C2: for every manager with a non-empty, duplicate-free registry,
the per-species `minTemp`/`maxTemp` delegate to the model at that
index, and the sentinel (no-argument, `k = -1`) `minTemp` is exactly
the maximum of the per-species minimum temperatures while the sentinel
`maxTemp` is exactly the minimum of the per-species maximum
temperatures: each aggregate bound both dominates every per-species
bound and is attained by some registered species — the tightest common
validity window, not a union. -/
theorem minTemp_maxTemp_aggregation (st : SpeciesThermo)
    (hne : st.models ≠ []) (hnd : st.nodupIndices) :
    (∀ m ∈ st.models,
      st.minTemp ((m.index : Int)) = m.minT ∧
      st.maxTemp ((m.index : Int)) = m.maxT ∧
      st.minTemp ((m.index : Int)) ≤ st.minTemp (-1) ∧
      st.maxTemp (-1) ≤ st.maxTemp ((m.index : Int))) ∧
    (∃ m ∈ st.models, st.minTemp (-1) = m.minT) ∧
    (∃ m ∈ st.models, st.maxTemp (-1) = m.maxT) := by
  have hnemin : st.models.map (fun m => m.minT) ≠ [] := by
    simpa using hne
  have hnemax : st.models.map (fun m => m.maxT) ≠ [] := by
    simpa using hne
  have hminspec := maxList_spec (st.models.map fun m => m.minT) hnemin
  have hmaxspec := minList_spec (st.models.map fun m => m.maxT) hnemax
  have hsentmin : st.minTemp (-1) = maxList (st.models.map fun m => m.minT) := rfl
  have hsentmax : st.maxTemp (-1) = minList (st.models.map fun m => m.maxT) := rfl
  have hdelmin : ∀ m ∈ st.models, st.minTemp ((m.index : Int)) = m.minT := by
    intro m hm
    have hfind : st.modelAt ((m.index : Int)) = some m :=
      find?_model_eq ((m.index : Int)) st.models m hnd hm rfl
    have hnonneg : ¬((m.index : Int) < 0) := by simp
    unfold SpeciesThermo.minTemp
    rw [if_neg hnonneg, hfind]
  have hdelmax : ∀ m ∈ st.models, st.maxTemp ((m.index : Int)) = m.maxT := by
    intro m hm
    have hfind : st.modelAt ((m.index : Int)) = some m :=
      find?_model_eq ((m.index : Int)) st.models m hnd hm rfl
    have hnonneg : ¬((m.index : Int) < 0) := by simp
    unfold SpeciesThermo.maxTemp
    rw [if_neg hnonneg, hfind]
  refine ⟨fun m hm => ⟨hdelmin m hm, hdelmax m hm, ?_, ?_⟩, ?_, ?_⟩
  · rw [hdelmin m hm, hsentmin]
    exact hminspec.2 m.minT (List.mem_map_of_mem (fun x => x.minT) hm)
  · rw [hdelmax m hm, hsentmax]
    exact hmaxspec.2 m.maxT (List.mem_map_of_mem (fun x => x.maxT) hm)
  · rcases List.mem_map.mp hminspec.1 with ⟨m, hm, hv⟩
    exact ⟨m, hm, by rw [hsentmin, hv]⟩
  · rcases List.mem_map.mp hmaxspec.1 with ⟨m, hm, hv⟩
    exact ⟨m, hm, by rw [hsentmax, hv]⟩

/-- C2 witness: the two-species example manager, whose common validity
window is [300, 3000]. -/
theorem minTemp_maxTemp_aggregation_witness :
    (∀ m ∈ stAB.models,
      stAB.minTemp ((m.index : Int)) = m.minT ∧
      stAB.maxTemp ((m.index : Int)) = m.maxT ∧
      stAB.minTemp ((m.index : Int)) ≤ stAB.minTemp (-1) ∧
      stAB.maxTemp (-1) ≤ stAB.maxTemp ((m.index : Int))) ∧
    (∃ m ∈ stAB.models, stAB.minTemp (-1) = m.minT) ∧
    (∃ m ∈ stAB.models, stAB.maxTemp (-1) = m.maxT) :=
  minTemp_maxTemp_aggregation stAB (by simp [stAB]) (by decide)

/-- C5: installing a model (at a non-negative index) succeeds, and the
installed model's `reportParameters` returns exactly the tuple
`(index, type, minTemp, maxTemp, refPressure, coeffs)` handed to
`install`; after a conforming `modifyParameters` with a new sequence
of the expected length, it returns the same tuple with only the
coefficients replaced. -/
theorem reportParameters_roundtrip (st : SpeciesThermo)
    (fam : Int → List doublereal → List doublereal → doublereal × doublereal × doublereal)
    (name : String) (index : Int) (typ : Int) (c : List doublereal)
    (mnT mxT rP : doublereal) (reqLen : Int → Nat) (hidx : 0 ≤ index) :
    (st.install fam name index typ c mnT mxT rP).2 = none ∧
    ∃ mm : SpeciesThermoInterpType,
      (st.install fam name index typ c mnT mxT rP).1.models.getLast? = some mm ∧
      mm.reportParameters = (index, typ, mnT, mxT, rP, c) ∧
      ∀ c2 : List doublereal, c2.length = reqLen mm.mtype →
        (mm.modifyParametersImpl reqLen c2).2 = none ∧
        (mm.modifyParametersImpl reqLen c2).1.reportParameters =
          (index, typ, mnT, mxT, rP, c2) := by
  have hlt : ¬index < 0 := not_lt.mpr hidx
  refine ⟨by simp [SpeciesThermo.install, hlt],
    ⟨⟨index.toNat, typ, mnT, mxT, rP, c, fam typ⟩, ?_, ?_, ?_⟩⟩
  · simp [SpeciesThermo.install, hlt]
  · simp [SpeciesThermoInterpType.reportParameters, Int.toNat_of_nonneg hidx]
  · intro c2 hc2
    constructor
    · simp [SpeciesThermoInterpType.modifyParametersImpl, hc2]
    · simp [SpeciesThermoInterpType.modifyParametersImpl, hc2,
        SpeciesThermoInterpType.reportParameters, Int.toNat_of_nonneg hidx]

/-- C5 witness: installing at index 2 into the empty manager. -/
theorem reportParameters_roundtrip_witness :
    (stEmpty.install famEx "A" 2 1 [1, 2, 3, 4] 200 3500 101325).2 = none ∧
    ∃ mm : SpeciesThermoInterpType,
      (stEmpty.install famEx "A" 2 1 [1, 2, 3, 4] 200 3500 101325).1.models.getLast? =
        some mm ∧
      mm.reportParameters = (2, 1, 200, 3500, 101325, [1, 2, 3, 4]) ∧
      ∀ c2 : List doublereal, c2.length = constCpReqLen mm.mtype →
        (mm.modifyParametersImpl constCpReqLen c2).2 = none ∧
        (mm.modifyParametersImpl constCpReqLen c2).1.reportParameters =
          (2, 1, 200, 3500, 101325, c2) :=
  reportParameters_roundtrip stEmpty famEx "A" 2 1 [1, 2, 3, 4] 200 3500 101325
    constCpReqLen (by decide)

/-- C8: `install` called with a negative species index fails
synchronously with a registration error and leaves the manager —
registry and recorded names — entirely unchanged. -/
theorem install_negative_index_fails (st : SpeciesThermo)
    (fam : Int → List doublereal → List doublereal → doublereal × doublereal × doublereal)
    (name : String) (index : Int) (typ : Int) (c : List doublereal)
    (mnT mxT rP : doublereal) (hneg : index < 0) :
    (st.install fam name index typ c mnT mxT rP).2 = some RegError.negativeIndex ∧
    (st.install fam name index typ c mnT mxT rP).1 = st := by
  constructor <;> simp [SpeciesThermo.install, hneg]

/-- C8 witness: installing at index −1 into the two-species example
manager. -/
theorem install_negative_index_fails_witness :
    (stAB.install famEx "C" (-1) 1 [1] 200 3500 101325).2 =
      some RegError.negativeIndex ∧
    (stAB.install famEx "C" (-1) 1 [1] 200 3500 101325).1 = stAB :=
  install_negative_index_fails stAB famEx "C" (-1) 1 [1] 200 3500 101325
    (by decide)

/-- C9: the manager's (spec-modelled, overriding) `modifyParams k c`
delegates to the model registered at index `k`: the model found at `k`
afterwards is exactly the outcome of that model's own
`modifyParameters c`, the error report is that call's own, and every
other registered model is untouched. -/
theorem modifyParams_delegates (st : SpeciesThermo) (reqLen : Int → Nat)
    (k : Int) (c : List doublereal) (m : SpeciesThermoInterpType)
    (hnd : st.nodupIndices) (hm : m ∈ st.models) (hk : (m.index : Int) = k) :
    (st.modifyParamsImpl reqLen k c).1.modelAt k =
      some ((m.modifyParametersImpl reqLen c).1) ∧
    (st.modifyParamsImpl reqLen k c).2 = (m.modifyParametersImpl reqLen c).2 ∧
    ∀ mm ∈ st.models, (mm.index : Int) ≠ k →
      mm ∈ (st.modifyParamsImpl reqLen k c).1.models := by
  have hfind : st.modelAt k = some m := find?_model_eq k st.models m hnd hm hk
  have himpl : st.modifyParamsImpl reqLen k c =
      ({ st with models := st.models.map fun mm =>
          if (mm.index : Int) == k then (m.modifyParametersImpl reqLen c).1 else mm },
       (m.modifyParametersImpl reqLen c).2) := by
    unfold SpeciesThermo.modifyParamsImpl
    rw [hfind]
  refine ⟨?_, ?_, ?_⟩
  · rw [himpl]
    exact modelAt_after_modify k reqLen c m hk st.models hm
  · rw [himpl]
  · intro mm hmm hne
    rw [himpl]
    have hid : (if (mm.index : Int) == k
        then (m.modifyParametersImpl reqLen c).1 else mm) = mm :=
      if_neg (by simpa using hne)
    exact hid ▸ List.mem_map_of_mem _ hmm

/-- C9 witness: modifying the coefficients of the model at index 1 of
the two-species example manager (the new sequence has the expected
length 1, so the coefficients are actually replaced). -/
theorem modifyParams_delegates_witness :
    (stAB.modifyParamsImpl (fun _ => 1) 1 [99]).1.modelAt 1 =
      some ((mB.modifyParametersImpl (fun _ => 1) [99]).1) ∧
    (stAB.modifyParamsImpl (fun _ => 1) 1 [99]).2 =
      (mB.modifyParametersImpl (fun _ => 1) [99]).2 ∧
    ∀ mm ∈ stAB.models, (mm.index : Int) ≠ 1 →
      mm ∈ (stAB.modifyParamsImpl (fun _ => 1) 1 [99]).1.models :=
  modifyParams_delegates stAB (fun _ => 1) 1 [99] mB (by decide)
    (List.mem_cons_of_mem mA (List.mem_cons_self mB [])) rfl

/-- C6 counterexample: the claim demands that a mismatched-length
coefficient sequence is *reported* synchronously, but
`SpeciesThermoInterpType::modifyParameters` as implemented in src is
an empty body. Applied to a concrete model whose type tag expects 4
coefficients, with a 3-element sequence, it reports nothing (and
changes nothing). -/
theorem modifyParameters_default_reports_no_error :
    ([1, 2, 3] : List doublereal).length ≠ constCpReqLen cmodel.mtype ∧
    cmodel.modifyParameters [1, 2, 3] = (cmodel, none) :=
  ⟨by decide, rfl⟩

/-- C6 (amended): a `modifyParameters`/`modifyParams` call with a
coefficient sequence whose length disagrees with what the type tag
requires leaves the prior state — coefficients, type tag, range,
reference pressure, and the manager's registry — entirely unchanged
(no partial mutation); a conforming override reports the error
synchronously at that call, while the default implementations in src
are silent no-ops that report nothing. -/
theorem modifyParameters_no_partial_mutation (m : SpeciesThermoInterpType)
    (reqLen : Int → Nat) (c : List doublereal) (st : SpeciesThermo) (k : Int)
    (mkm : SpeciesThermoInterpType) (hnd : st.nodupIndices)
    (hmk : mkm ∈ st.models) (hk : (mkm.index : Int) = k)
    (hlen : c.length ≠ reqLen m.mtype) (hlenk : c.length ≠ reqLen mkm.mtype) :
    m.modifyParameters c = (m, none) ∧
    m.modifyParametersImpl reqLen c = (m, some CoeffError.badLength) ∧
    st.modifyParams k c = (st, none) ∧
    (st.modifyParamsImpl reqLen k c).1 = st ∧
    (st.modifyParamsImpl reqLen k c).2 = some CoeffError.badLength := by
  have hfind : st.modelAt k = some mkm := find?_model_eq k st.models mkm hnd hmk hk
  have hsame : (mkm.modifyParametersImpl reqLen c).1 = mkm := by
    unfold SpeciesThermoInterpType.modifyParametersImpl
    rw [if_neg hlenk]
  have himpl : st.modifyParamsImpl reqLen k c =
      ({ st with models := st.models.map fun mm =>
          if (mm.index : Int) == k then (mkm.modifyParametersImpl reqLen c).1 else mm },
       (mkm.modifyParametersImpl reqLen c).2) := by
    unfold SpeciesThermo.modifyParamsImpl
    rw [hfind]
  refine ⟨rfl, ?_, rfl, ?_, ?_⟩
  · unfold SpeciesThermoInterpType.modifyParametersImpl
    rw [if_neg hlen]
  · rw [himpl, modify_map_id k reqLen c st.models hnd mkm hmk hk hsame]
  · rw [himpl]
    unfold SpeciesThermoInterpType.modifyParametersImpl
    rw [if_neg hlenk]

/-- C6 witness: a 3-element sequence against type tags expecting 4
coefficients, for the model-level and the manager-level operations. -/
theorem modifyParameters_no_partial_mutation_witness :
    cmodel.modifyParameters [1, 2, 3] = (cmodel, none) ∧
    cmodel.modifyParametersImpl constCpReqLen [1, 2, 3] =
      (cmodel, some CoeffError.badLength) ∧
    stAB.modifyParams 0 [1, 2, 3] = (stAB, none) ∧
    (stAB.modifyParamsImpl constCpReqLen 0 [1, 2, 3]).1 = stAB ∧
    (stAB.modifyParamsImpl constCpReqLen 0 [1, 2, 3]).2 =
      some CoeffError.badLength :=
  modifyParameters_no_partial_mutation cmodel constCpReqLen [1, 2, 3] stAB 0 mA
    (by decide) (List.mem_cons_self mA [mB]) rfl (by decide) (by decide)

end Cantera
